import Mathlib

/-!
# Verification of the papiguy/fsm finite-state-machine engine

The repository's core (`fsm.go`) middles a declarative transition table,
a string-keyed callback registry, and a dispatch algorithm with
cancel/async/commit semantics.  The core source file is not present in
the repository snapshot (only its test suite `fsm_test.go` and example
programs are), so the engine below is modelled from the specification's
§3–§4 (data model, transition table build, callback resolution order,
dispatch algorithm), with the test suite constraining points the spec
leaves ambiguous (e.g. the bare-state shorthand callback fires with
action kind ActionOnEvent exactly once per dispatch, in the before
phase, as forced by ExampleFSM_MultipleEventOnSameState and
ExampleFSM_OnStateTransitionCancelled).

States and event names are opaque comparable identifiers, modelled as
`String`.  Callbacks are pure functions from an action-kind tag and an
event context to an updated event context; the engine additionally
emits a trace recording every callback invocation and the commit
boundary, which is how invocation-order claims are stated.
-/

/-- Modelled from the spec: an Event Definition
`{ name, sources, destination }` (§3); field names follow the test
suite's literals (`EvtName`, `SrcStates`, `DstStates`). -/
structure EventDesc where
  EvtName : String
  SrcStates : List String
  DstStates : String
deriving Repr, DecidableEq

/-- The caller-supplied ordered list of event definitions. -/
abbrev Events := List EventDesc

/-- Modelled from the spec: the Event Context (§3), one per dispatch
call: event name, source and destination states, caller arguments, an
error slot, and the cancel/async flags callbacks may set.  Matches the
Go `Event` struct used by the tests (`e.Event`, `e.Args`, `e.Err`,
`e.canceled`, `e.Async()`). -/
structure Event where
  event : String
  src : String
  dst : String
  args : List String := []
  err : Option String := none
  canceled : Bool := false
  async : Bool := false
deriving Repr, DecidableEq

/-- Modelled from the spec: a callback takes an action-kind tag and the
event context, and returns the (possibly mutated) context.  This is the
pure rendering of the Go signature `func(action string, e *Event)`:
side effects other than context mutation are observed through the
engine's invocation trace, not through the callback itself. -/
abbrev Callback := String → Event → Event

/-- The caller-supplied callback registry, keyed by hook-key strings
(first match wins, mirroring unique map keys). -/
abbrev Callbacks := List (String × Callback)

/-- Modelled from the spec: action-kind tag passed to a bare-state
shorthand callback when an event is processed while the machine is
resident in that state (the `ActionOnEvent` constant the tests compare
against). -/
def ActionOnEvent : String := "on_event"

/-- Modelled from the spec: action-kind tag for a bare-state shorthand
callback fired during the enter phase of its state. -/
def ActionOnEnter : String := "on_enter"

/-- Modelled from the spec: action-kind tag for a bare-state shorthand
callback fired during the leave phase of its state. -/
def ActionOnLeave : String := "on_leave"

/-- Modelled from the spec: action-kind tag passed to before-phase
callbacks. -/
def ActionBefore : String := "action_before"

/-- Modelled from the spec: action-kind tag passed to leave-phase
callbacks. -/
def ActionLeave : String := "action_leave"

/-- Modelled from the spec: action-kind tag passed to enter-phase
callbacks. -/
def ActionEnter : String := "action_enter"

/-- Modelled from the spec: action-kind tag passed to after-phase
callbacks. -/
def ActionAfter : String := "action_after"

/-- Modelled from the spec: the error taxonomy of §7.  `plain` is the
"plain wrapped error" case (a callback set the context's error without
canceling); the others are the named error kinds. -/
inductive FSMError where
  | unknownEvent (event : String)
  | invalidEvent (event state : String)
  | inTransition (event : String)
  | notInTransition
  | canceled (err : Option String)
  | async (err : Option String)
  | noTransition (err : Option String)
  | plain (err : String)
deriving Repr, DecidableEq

/-- One entry of the observable dispatch trace: either the invocation
of the callback registered under `key` with action-kind tag `action`,
or the commit boundary (the mutation of `current` to `dst`). -/
inductive TraceEntry where
  | call (key action : String)
  | commit (dst : String)
deriving Repr, DecidableEq

/-- A deferred (asynchronous) transition: the destination and the event
context captured by the commit closure (§9: "represent as an explicit
owned value holding the destination state and the Event Context"). -/
structure Pending where
  dst : String
  ctx : Event

/-- Modelled from the spec: the FSM Engine state (§3): current state,
the compiled transition table (a `(event, source) → destination` list
where a later entry overwrites an earlier one), the set of known event
names, the set of known states (sources and destinations, used to
classify bare shorthand callback keys), the callback registry, and the
optional pending transition. -/
structure FSM where
  current : String
  transitions : List ((String × String) × String)
  allEvents : List String
  allStates : List String
  callbacks : Callbacks
  pending : Option Pending := none

/-- Modelled from the spec: construction (§4.1 Build and §6 `New`):
iterate the definitions in input order, inserting
`(name, source) → destination` for each source (the lookup function
makes a later insertion win), record every event name and every state
appearing as a source or destination. -/
def NewFSM (initial : String) (events : Events) (callbacks : Callbacks) : FSM :=
  { current := initial
  , transitions :=
      events.flatMap (fun e => e.SrcStates.map (fun s => ((e.EvtName, s), e.DstStates)))
  , allEvents := events.map (fun e => e.EvtName)
  , allStates := events.flatMap (fun e => e.SrcStates ++ [e.DstStates])
  , callbacks := callbacks
  , pending := none }

/-- Modelled from the spec: table lookup (§4.1): the destination for
`(event, state)`, with a later table entry overwriting an earlier one
(last-write-wins), hence the search over the reversed entry list. -/
def FSM.lookupDst (f : FSM) (event state : String) : Option String :=
  (f.transitions.reverse.find? (fun p => p.1.1 == event && p.1.2 == state)).map (fun p => p.2)

/-- Modelled from the spec: `KnownEvent` (§4.1): does the event name
appear in any definition, regardless of state. -/
def FSM.knownEvent (f : FSM) (event : String) : Bool :=
  f.allEvents.contains event

/-- Look up the callback registered under an exact key. -/
def lookupCb (cbs : Callbacks) (key : String) : Option Callback :=
  (cbs.find? (fun p => p.1 == key)).map (fun p => p.2)

/-- Invoke the callback registered under `key` (if any) with the given
action-kind tag, recording the invocation in the trace; an unmatched
key is a silent no-op (§3 invariant). -/
def callIf (cbs : Callbacks) (key action : String) (e : Event) : Event × List TraceEntry :=
  match lookupCb cbs key with
  | some cb => (cb action e, [TraceEntry.call key action])
  | none => (e, [])

/-- Modelled from the spec: the before phase (§4.2, §4.4 step 4),
resolved on the event name: the specific `before_<event>` key, then the
generic `before_event` key, then — the dual firing of §4.2 — the bare
shorthand key equal to the source state (when that key names a known
state) with action kind `ActionOnEvent`.  After each callback the
canceled flag is checked and the remainder of the phase is skipped. -/
def beforePhase (f : FSM) (name : String) (e : Event) : Event × List TraceEntry :=
  let r1 := callIf f.callbacks ("before_" ++ name) ActionBefore e
  if r1.1.canceled then r1
  else
    let r2 := callIf f.callbacks "before_event" ActionBefore r1.1
    if r2.1.canceled then (r2.1, r1.2 ++ r2.2)
    else
      let r3 :=
        if f.allStates.contains e.src then
          callIf f.callbacks e.src ActionOnEvent r2.1
        else (r2.1, [])
      (r3.1, r1.2 ++ r2.2 ++ r3.2)

/-- Modelled from the spec: the leave phase (§4.2, §4.4 step 4),
resolved on the source state: the specific `leave_<state>` key, then
the bare shorthand key equal to the state (dual firing, action kind
`ActionOnLeave`), then the generic `leave_state` key, with a canceled
check after each callback. -/
def leavePhase (f : FSM) (state : String) (e : Event) : Event × List TraceEntry :=
  let r1 := callIf f.callbacks ("leave_" ++ state) ActionLeave e
  if r1.1.canceled then r1
  else
    let r2 :=
      if f.allStates.contains state then
        callIf f.callbacks state ActionOnLeave r1.1
      else (r1.1, [])
    if r2.1.canceled then (r2.1, r1.2 ++ r2.2)
    else
      let r3 := callIf f.callbacks "leave_state" ActionLeave r2.1
      (r3.1, r1.2 ++ r2.2 ++ r3.2)

/-- Modelled from the spec: the enter phase (§4.2, §4.4 step 6),
resolved on the destination state: specific `enter_<state>`, then the
bare shorthand key equal to the state (action kind `ActionOnEnter`),
then generic `enter_state`.  Runs after the commit boundary, so the
cancel flag is not consulted. -/
def enterPhase (f : FSM) (state : String) (e : Event) : Event × List TraceEntry :=
  let r1 := callIf f.callbacks ("enter_" ++ state) ActionEnter e
  let r2 :=
    if f.allStates.contains state then
      callIf f.callbacks state ActionOnEnter r1.1
    else (r1.1, [])
  let r3 := callIf f.callbacks "enter_state" ActionEnter r2.1
  (r3.1, r1.2 ++ r2.2 ++ r3.2)

/-- Modelled from the spec: the after phase (§4.2), resolved on the
event name: specific `after_<event>`, then the bare shorthand key equal
to the event name (when that key names a known event and not a known
state, matching construction-time classification of bare keys), then
generic `after_event`.  The cancel flag is not consulted. -/
def afterPhase (f : FSM) (name : String) (e : Event) : Event × List TraceEntry :=
  let r1 := callIf f.callbacks ("after_" ++ name) ActionAfter e
  let r2 :=
    if !(f.allStates.contains name) && f.allEvents.contains name then
      callIf f.callbacks name ActionAfter r1.1
    else (r1.1, [])
  let r3 := callIf f.callbacks "after_event" ActionAfter r2.1
  (r3.1, r1.2 ++ r2.2 ++ r3.2)

/-- Construct the Event Context for one dispatch call (§4.4 step 3):
source is the current state, destination the table lookup result,
arguments the caller-supplied ones; error, cancel and async slots start
empty. -/
def initEvent (name src dst : String) (args : List String) : Event :=
  { event := name, src := src, dst := dst, args := args }

/-- Modelled from the spec: the dispatch algorithm `Event` (§4.4).
Returns the updated engine, the call's result (`none` for a plain
successful transition), and the trace of callback invocations and the
commit boundary.  Steps: reject when a pending transition exists
(InTransitionError); classify an undefined event (UnknownEventError /
InvalidEventError); build the context; run the before phase with
cancellation checks; on a self-transition run the after phase and
return NoTransitionError; otherwise run the leave phase with
cancellation checks, defer on async (AsyncError), or commit
immediately: mutate `current`, run the enter and after phases, and
return the context's final error slot. -/
def FSM.Event (f : FSM) (name : String) (args : List String := []) :
    FSM × Option FSMError × List TraceEntry :=
  if f.pending.isSome then (f, some (FSMError.inTransition name), [])
  else
    match f.lookupDst name f.current with
    | none =>
      if f.knownEvent name then (f, some (FSMError.invalidEvent name f.current), [])
      else (f, some (FSMError.unknownEvent name), [])
    | some dst =>
      let e0 := initEvent name f.current dst args
      let rb := beforePhase f name e0
      if rb.1.canceled then (f, some (FSMError.canceled rb.1.err), rb.2)
      else if dst == f.current then
        let ra := afterPhase f name rb.1
        (f, some (FSMError.noTransition ra.1.err), rb.2 ++ ra.2)
      else
        let rl := leavePhase f f.current rb.1
        if rl.1.canceled then (f, some (FSMError.canceled rl.1.err), rb.2 ++ rl.2)
        else if rl.1.async then
          ({ f with pending := some ⟨dst, rl.1⟩ }, some (FSMError.async rl.1.err), rb.2 ++ rl.2)
        else
          let f1 := { f with current := dst }
          let re := enterPhase f1 dst rl.1
          let ra := afterPhase f1 name re.1
          (f1, (ra.1.err).map FSMError.plain,
            rb.2 ++ rl.2 ++ [TraceEntry.commit dst] ++ re.2 ++ ra.2)

/-- Modelled from the spec: `Transition` (§4.4), the explicit
completion of a deferred transition: with no pending transition, fail
with NotInTransitionError; otherwise take and clear the pending value,
set `current` to its destination (the commit boundary), and run the
enter and after phases with the captured context. -/
def FSM.Transition (f : FSM) : FSM × Option FSMError × List TraceEntry :=
  match f.pending with
  | none => (f, some FSMError.notInTransition, [])
  | some p =>
    let f1 := { f with current := p.dst, pending := none }
    let re := enterPhase f1 p.dst p.ctx
    let ra := afterPhase f1 p.ctx.event re.1
    (f1, none, TraceEntry.commit p.dst :: (re.2 ++ ra.2))

/-- Modelled from the spec: `Current` (§4.4) returns the current
state. -/
def FSM.Current (f : FSM) : String := f.current

/-- Modelled from the spec: the `Is` query is absent from the spec's
operation list; modelled from its test (ExampleFSM_Is) as the equality
test between the queried state and the current state, a pure query with
no state change and no callback invocation. -/
def FSM.Is (f : FSM) (state : String) : Bool := f.current == state

/-! ## Proof infrastructure -/

/-- A callback that never touches the cancel or async flags of the
context it receives (it may still set the error slot or mutate other
fields). -/
def preservesFlags (cb : Callback) : Prop :=
  ∀ a e, ((cb a e).canceled = e.canceled) ∧ ((cb a e).async = e.async)

/-- A registry all of whose callbacks leave the cancel and async flags
alone: no callback cancels or defers a transition. -/
def NonblockingCbs (cbs : Callbacks) : Prop :=
  ∀ q ∈ cbs, preservesFlags q.2

/-- The before phase of one dispatch, run on the freshly built context
(the composition the dispatch algorithm performs before its first
cancellation check). -/
def beforeRun (f : FSM) (name : String) (args : List String) (d : String) :
    Event × List TraceEntry :=
  beforePhase f name (initEvent name f.current d args)

/-- The leave phase of one dispatch, run on the before phase's output
context. -/
def leaveRun (f : FSM) (name : String) (args : List String) (d : String) :
    Event × List TraceEntry :=
  leavePhase f f.current (beforeRun f name args d).1

/-- The enter phase of one committed dispatch: run after the commit
boundary, on the leave phase's output context. -/
def enterRun (f : FSM) (name : String) (args : List String) (d : String) :
    Event × List TraceEntry :=
  enterPhase { f with current := d } d (leaveRun f name args d).1

/-- The after phase of one committed dispatch. -/
def afterRunCommit (f : FSM) (name : String) (args : List String) (d : String) :
    Event × List TraceEntry :=
  afterPhase { f with current := d } name (enterRun f name args d).1

/-- The after phase of a self-transition dispatch (leave and enter are
skipped). -/
def afterRunSelf (f : FSM) (name : String) (args : List String) (d : String) :
    Event × List TraceEntry :=
  afterPhase f name (beforeRun f name args d).1

/-! ## Concrete machines from the test suite, used as witnesses -/

/-- A callback that returns its context unchanged (models a callback
whose only effect is external, such as printing). -/
def idCb : Callback := fun _ e => e

/-- The door machine of TestInappropriateEvent / ExampleFSM_Is. -/
def doorFSM : FSM :=
  NewFSM "closed"
    [ ⟨"open", ["closed"], "open"⟩, ⟨"close", ["open"], "closed"⟩ ] []

/-- The self-transition machine of TestSameState / TestNoTransition. -/
def selfFSM : FSM :=
  NewFSM "start" [ ⟨"run", ["start"], "start"⟩ ] []

/-- The traffic-light machine of ExampleNewFSM, with the eight
fully-qualified and generic callbacks registered. -/
def trafficFSM : FSM :=
  NewFSM "green"
    [ ⟨"warn", ["green"], "yellow"⟩, ⟨"panic", ["yellow"], "red"⟩
    , ⟨"panic", ["green"], "red"⟩, ⟨"calm", ["red"], "yellow"⟩
    , ⟨"clear", ["yellow"], "green"⟩ ]
    [ ("before_warn", idCb), ("before_event", idCb)
    , ("leave_green", idCb), ("leave_state", idCb)
    , ("enter_yellow", idCb), ("enter_state", idCb)
    , ("after_warn", idCb), ("after_event", idCb) ]

/-- The machine of TestCancelWithError: the generic before callback
cancels with a supplied error. -/
def cancelFSM : FSM :=
  NewFSM "start" [ ⟨"run", ["start"], "end"⟩ ]
    [ ("before_event", fun _ e => { e with canceled := true, err := some "error" }) ]

/-- The machine of TestCancelLeaveSpecificState: the state-specific
leave callback cancels. -/
def leaveCancelFSM : FSM :=
  NewFSM "start" [ ⟨"run", ["start"], "end"⟩ ]
    [ ("leave_start", fun _ e => { e with canceled := true }) ]

/-- A machine whose generic after callback attempts to cancel after the
commit boundary. -/
def afterCancelFSM : FSM :=
  NewFSM "start" [ ⟨"run", ["start"], "end"⟩ ]
    [ ("after_event", fun _ e => { e with canceled := true }) ]

/-- The machine of TestAsyncTransitionGenericState /
TestAsyncTransitionInProgress: the generic leave callback defers the
transition. -/
def asyncFSM : FSM :=
  NewFSM "start"
    [ ⟨"run", ["start"], "end"⟩, ⟨"reset", ["end"], "start"⟩ ]
    [ ("leave_state", fun _ e => { e with async := true }) ]

/-- The async machine after dispatching `run`: an engine with a pending
deferred transition. -/
def pendingFSM : FSM := (asyncFSM.Event "run" []).1

/-- The machine of TestCallbackError: the bare event-shorthand callback
sets the context's error slot without canceling. -/
def errFSM : FSM :=
  NewFSM "start" [ ⟨"run", ["start"], "end"⟩ ]
    [ ("run", fun _ e => { e with err := some "error" }) ]

/-- The phone machine of ExampleFSM_MultipleEventOnSameState, with bare
state-shorthand callbacks on both states. -/
def phoneFSM : FSM :=
  NewFSM "Idle"
    [ ⟨"call", ["Idle"], "CallInProgress"⟩
    , ⟨"talking", ["CallInProgress"], "CallInProgress"⟩
    , ⟨"Done", ["CallInProgress"], "Idle"⟩ ]
    [ ("Idle", idCb), ("CallInProgress", idCb) ]

/-- The phone machine after taking a call: resident in
CallInProgress. -/
def phoneBusyFSM : FSM := (phoneFSM.Event "call" []).1

theorem callIf_of_some {cbs : Callbacks} {k : String} {cb : Callback}
    (h : lookupCb cbs k = some cb) (a : String) (e : Event) :
    callIf cbs k a e = (cb a e, [TraceEntry.call k a]) := by
  simp [callIf, h]

theorem callIf_of_none {cbs : Callbacks} {k : String}
    (h : lookupCb cbs k = none) (a : String) (e : Event) :
    callIf cbs k a e = (e, []) := by
  simp [callIf, h]

theorem lookupCb_mem {cbs : Callbacks} {k : String} {cb : Callback}
    (h : lookupCb cbs k = some cb) : (k, cb) ∈ cbs := by
  unfold lookupCb at h
  cases hf : cbs.find? (fun p => p.1 == k) with
  | none => rw [hf] at h; simp at h
  | some q =>
    rw [hf] at h
    have hqmem := List.mem_of_find?_eq_some hf
    have hqpred := List.find?_some hf
    obtain ⟨a, b⟩ := q
    simp at h hqpred
    subst hqpred
    subst h
    exact hqmem

theorem callIf_canceled {cbs : Callbacks} (hnb : NonblockingCbs cbs)
    (k a : String) (e : Event) :
    (callIf cbs k a e).1.canceled = e.canceled := by
  unfold callIf
  cases h : lookupCb cbs k with
  | none => rfl
  | some cb => exact (hnb _ (lookupCb_mem h) a e).1

theorem callIf_async {cbs : Callbacks} (hnb : NonblockingCbs cbs)
    (k a : String) (e : Event) :
    (callIf cbs k a e).1.async = e.async := by
  unfold callIf
  cases h : lookupCb cbs k with
  | none => rfl
  | some cb => exact (hnb _ (lookupCb_mem h) a e).2

theorem stepIf_canceled {cbs : Callbacks} (hnb : NonblockingCbs cbs)
    (c : Bool) (k a : String) (e : Event) :
    ((if c then callIf cbs k a e else (e, [])).1).canceled = e.canceled := by
  cases c
  · rfl
  · simpa using callIf_canceled hnb k a e

theorem stepIf_async {cbs : Callbacks} (hnb : NonblockingCbs cbs)
    (c : Bool) (k a : String) (e : Event) :
    ((if c then callIf cbs k a e else (e, [])).1).async = e.async := by
  cases c
  · rfl
  · simpa using callIf_async hnb k a e

theorem beforePhase_canceled {f : FSM} (hnb : NonblockingCbs f.callbacks)
    (name : String) (e : Event) :
    (beforePhase f name e).1.canceled = e.canceled := by
  have hc1 := callIf_canceled hnb ("before_" ++ name) ActionBefore e
  have hc2 := callIf_canceled hnb "before_event" ActionBefore
    ((callIf f.callbacks ("before_" ++ name) ActionBefore e).1)
  have hc3 := stepIf_canceled hnb (f.allStates.contains e.src) e.src ActionOnEvent
    ((callIf f.callbacks "before_event" ActionBefore
      ((callIf f.callbacks ("before_" ++ name) ActionBefore e).1)).1)
  cases he : e.canceled with
  | true => simp [beforePhase, he] at hc1 ⊢; simp [hc1]
  | false =>
    rw [he] at hc1
    rw [hc1] at hc2
    rw [hc2] at hc3
    simp [beforePhase, hc1, hc2]
    simpa using hc3

theorem beforePhase_async {f : FSM} (hnb : NonblockingCbs f.callbacks)
    (name : String) (e : Event) (he : e.canceled = false) :
    (beforePhase f name e).1.async = e.async := by
  have hc1 := callIf_canceled hnb ("before_" ++ name) ActionBefore e
  have hc2 := callIf_canceled hnb "before_event" ActionBefore
    ((callIf f.callbacks ("before_" ++ name) ActionBefore e).1)
  rw [he] at hc1
  rw [hc1] at hc2
  have ha1 := callIf_async hnb ("before_" ++ name) ActionBefore e
  have ha2 := callIf_async hnb "before_event" ActionBefore
    ((callIf f.callbacks ("before_" ++ name) ActionBefore e).1)
  have ha3 := stepIf_async hnb (f.allStates.contains e.src) e.src ActionOnEvent
    ((callIf f.callbacks "before_event" ActionBefore
      ((callIf f.callbacks ("before_" ++ name) ActionBefore e).1)).1)
  simp [beforePhase, hc1, hc2]
  simpa [ha2, ha1] using ha3

theorem leavePhase_canceled {f : FSM} (hnb : NonblockingCbs f.callbacks)
    (s : String) (e : Event) :
    (leavePhase f s e).1.canceled = e.canceled := by
  have hc1 := callIf_canceled hnb ("leave_" ++ s) ActionLeave e
  have hc2 := stepIf_canceled hnb (f.allStates.contains s) s ActionOnLeave
    ((callIf f.callbacks ("leave_" ++ s) ActionLeave e).1)
  have hc3 := callIf_canceled hnb "leave_state" ActionLeave
    ((if f.allStates.contains s then
        callIf f.callbacks s ActionOnLeave ((callIf f.callbacks ("leave_" ++ s) ActionLeave e).1)
      else ((callIf f.callbacks ("leave_" ++ s) ActionLeave e).1, [])).1)
  cases he : e.canceled with
  | true => simp [leavePhase, he] at hc1 ⊢; simp [hc1]
  | false =>
    rw [he] at hc1
    rw [hc1] at hc2
    rw [hc2] at hc3
    simp at hc2 hc3
    simp [leavePhase, hc1, hc2, hc3]

theorem leavePhase_async {f : FSM} (hnb : NonblockingCbs f.callbacks)
    (s : String) (e : Event) (he : e.canceled = false) :
    (leavePhase f s e).1.async = e.async := by
  have hc1 := callIf_canceled hnb ("leave_" ++ s) ActionLeave e
  have hc2 := stepIf_canceled hnb (f.allStates.contains s) s ActionOnLeave
    ((callIf f.callbacks ("leave_" ++ s) ActionLeave e).1)
  rw [he] at hc1
  rw [hc1] at hc2
  have ha1 := callIf_async hnb ("leave_" ++ s) ActionLeave e
  have ha2 := stepIf_async hnb (f.allStates.contains s) s ActionOnLeave
    ((callIf f.callbacks ("leave_" ++ s) ActionLeave e).1)
  have ha3 := callIf_async hnb "leave_state" ActionLeave
    ((if f.allStates.contains s then
        callIf f.callbacks s ActionOnLeave ((callIf f.callbacks ("leave_" ++ s) ActionLeave e).1)
      else ((callIf f.callbacks ("leave_" ++ s) ActionLeave e).1, [])).1)
  simp at hc2 ha2 ha3
  simp [leavePhase, hc1, hc2, ha1, ha2, ha3]

theorem Event_eq_canceledBefore {f : FSM} {name : String} {args : List String} {d : String}
    (hp : f.pending = none)
    (hl : f.lookupDst name f.current = some d)
    (hb : (beforeRun f name args d).1.canceled = true) :
    f.Event name args =
      (f, some (FSMError.canceled (beforeRun f name args d).1.err),
        (beforeRun f name args d).2) := by
  simp only [FSM.Event, hp, Option.isSome_none, Bool.false_eq_true, if_false, hl]
  simp only [beforeRun] at hb
  simp [hb, beforeRun]

theorem Event_eq_self {f : FSM} {name : String} {args : List String}
    (hl : f.lookupDst name f.current = some f.current)
    (hp : f.pending = none)
    (hb : (beforeRun f name args f.current).1.canceled = false) :
    f.Event name args =
      (f, some (FSMError.noTransition (afterRunSelf f name args f.current).1.err),
        (beforeRun f name args f.current).2 ++ (afterRunSelf f name args f.current).2) := by
  simp only [FSM.Event, hp, Option.isSome_none, Bool.false_eq_true, if_false, hl]
  simp only [beforeRun] at hb
  simp [hb, afterRunSelf, beforeRun]

theorem Event_eq_canceledLeave {f : FSM} {name : String} {args : List String} {d : String}
    (hp : f.pending = none)
    (hl : f.lookupDst name f.current = some d)
    (hd : (d == f.current) = false)
    (hb : (beforeRun f name args d).1.canceled = false)
    (hc : (leaveRun f name args d).1.canceled = true) :
    f.Event name args =
      (f, some (FSMError.canceled (leaveRun f name args d).1.err),
        (beforeRun f name args d).2 ++ (leaveRun f name args d).2) := by
  simp only [FSM.Event, hp, Option.isSome_none, Bool.false_eq_true, if_false, hl]
  simp only [beforeRun] at hb
  simp only [leaveRun, beforeRun] at hc
  simp [hb, hd, hc, leaveRun, beforeRun]

theorem Event_eq_async {f : FSM} {name : String} {args : List String} {d : String}
    (hp : f.pending = none)
    (hl : f.lookupDst name f.current = some d)
    (hd : (d == f.current) = false)
    (hb : (beforeRun f name args d).1.canceled = false)
    (hc : (leaveRun f name args d).1.canceled = false)
    (ha : (leaveRun f name args d).1.async = true) :
    f.Event name args =
      ({ f with pending := some ⟨d, (leaveRun f name args d).1⟩ },
        some (FSMError.async (leaveRun f name args d).1.err),
        (beforeRun f name args d).2 ++ (leaveRun f name args d).2) := by
  simp only [FSM.Event, hp, Option.isSome_none, Bool.false_eq_true, if_false, hl]
  simp only [beforeRun] at hb
  simp only [leaveRun, beforeRun] at hc ha
  simp [hb, hd, hc, ha, leaveRun, beforeRun]

theorem Event_eq_commit {f : FSM} {name : String} {args : List String} {d : String}
    (hp : f.pending = none)
    (hl : f.lookupDst name f.current = some d)
    (hd : (d == f.current) = false)
    (hb : (beforeRun f name args d).1.canceled = false)
    (hc : (leaveRun f name args d).1.canceled = false)
    (ha : (leaveRun f name args d).1.async = false) :
    f.Event name args =
      ({ f with current := d },
        ((afterRunCommit f name args d).1.err).map FSMError.plain,
        (beforeRun f name args d).2 ++ (leaveRun f name args d).2 ++
          [TraceEntry.commit d] ++ (enterRun f name args d).2 ++
          (afterRunCommit f name args d).2) := by
  simp only [FSM.Event, hp, Option.isSome_none, Bool.false_eq_true, if_false, hl]
  simp only [beforeRun] at hb
  simp only [leaveRun, beforeRun] at hc ha
  simp [hb, hd, hc, ha, hp, afterRunCommit, enterRun, leaveRun, beforeRun]

theorem beforePhase_mem_onEvent {f : FSM} (hnb : NonblockingCbs f.callbacks)
    {cb : Callback} (name : String) (e : Event)
    (hcb : lookupCb f.callbacks e.src = some cb)
    (hs : f.allStates.contains e.src = true)
    (he : e.canceled = false) :
    TraceEntry.call e.src ActionOnEvent ∈ (beforePhase f name e).2 := by
  have hc1 := callIf_canceled hnb ("before_" ++ name) ActionBefore e
  have hc2 := callIf_canceled hnb "before_event" ActionBefore
    ((callIf f.callbacks ("before_" ++ name) ActionBefore e).1)
  rw [he] at hc1
  rw [hc1] at hc2
  have hs2 : e.src ∈ f.allStates := by simpa using hs
  simp [beforePhase, hc1, hc2, hs2, callIf_of_some hcb]

theorem leavePhase_mem_onLeave {f : FSM} (hnb : NonblockingCbs f.callbacks)
    {cb : Callback} (s : String) (e : Event)
    (hcb : lookupCb f.callbacks s = some cb)
    (hs : f.allStates.contains s = true)
    (he : e.canceled = false) :
    TraceEntry.call s ActionOnLeave ∈ (leavePhase f s e).2 := by
  have hc1 := callIf_canceled hnb ("leave_" ++ s) ActionLeave e
  rw [he] at hc1
  have hc2 := callIf_canceled hnb s ActionOnLeave
    ((callIf f.callbacks ("leave_" ++ s) ActionLeave e).1)
  rw [hc1] at hc2
  have hc2b : (cb ActionOnLeave ((callIf f.callbacks ("leave_" ++ s) ActionLeave e).1)).canceled
      = false := by
    simpa [callIf_of_some hcb] using hc2
  have hs2 : s ∈ f.allStates := by simpa using hs
  simp [leavePhase, hc1, hc2b, hs2, callIf_of_some hcb]

theorem enterPhase_mem_onEnter {f : FSM}
    {cb : Callback} (s : String) (e : Event)
    (hcb : lookupCb f.callbacks s = some cb)
    (hs : f.allStates.contains s = true) :
    TraceEntry.call s ActionOnEnter ∈ (enterPhase f s e).2 := by
  have hs2 : s ∈ f.allStates := by simpa using hs
  simp [enterPhase, hs2, callIf_of_some hcb]

theorem lookupDst_eq_none_of_not_known {f : FSM} {name : String}
    (hwf : ∀ p ∈ f.transitions, p.1.1 ∈ f.allEvents)
    (hk : f.knownEvent name = false) (st : String) :
    f.lookupDst name st = none := by
  unfold FSM.lookupDst
  cases hf : f.transitions.reverse.find? (fun p => p.1.1 == name && p.1.2 == st) with
  | none => rfl
  | some q =>
    exfalso
    have hqmem : q ∈ f.transitions := List.mem_reverse.mp (List.mem_of_find?_eq_some hf)
    have hqpred := List.find?_some hf
    simp only [Bool.and_eq_true, beq_iff_eq] at hqpred
    have hknown := hwf q hqmem
    rw [hqpred.1] at hknown
    simp [FSM.knownEvent] at hk
    exact hk hknown

theorem Transition_eq_notInTransition {f : FSM} (hp : f.pending = none) :
    f.Transition = (f, some FSMError.notInTransition, []) := by
  simp [FSM.Transition, hp]

theorem Transition_eq_resume {f : FSM} {p : Pending} (hp : f.pending = some p) :
    f.Transition =
      ({ f with current := p.dst, pending := none }, none,
        TraceEntry.commit p.dst ::
          ((enterPhase { f with current := p.dst, pending := none } p.dst p.ctx).2 ++
           (afterPhase { f with current := p.dst, pending := none } p.ctx.event
             (enterPhase { f with current := p.dst, pending := none } p.dst p.ctx).1).2)) := by
  simp [FSM.Transition, hp]

/-! ## Claims C1, C3, C6, C10 -/

theorem preservesFlags_idCb : preservesFlags idCb :=
  fun _ _ => ⟨rfl, rfl⟩

/-- C1: for every engine with no pending transition and a table whose
entries all carry known event names: if the event name is known but has
no definition from the current state, `Event` returns InvalidEventError
and the engine (hence `Current()`) is unchanged; if the event name is
known to no definition at all, `Event` returns UnknownEventError and
the engine is unchanged. -/
theorem fsm_event_error_classification (f : FSM) (name : String) (args : List String)
    (hp : f.pending = none)
    (hwf : ∀ p ∈ f.transitions, p.1.1 ∈ f.allEvents) :
    (f.knownEvent name = true → f.lookupDst name f.current = none →
       f.Event name args = (f, some (FSMError.invalidEvent name f.current), [])) ∧
    (f.knownEvent name = false →
       f.Event name args = (f, some (FSMError.unknownEvent name), [])) := by
  constructor
  · intro hk hl
    simp [FSM.Event, hp, hl, hk]
  · intro hk
    have hl := lookupDst_eq_none_of_not_known hwf hk f.current
    simp [FSM.Event, hp, hl, hk]

/-- Witness for C1 on the door machine: `close` is defined only from
`open`, so it is invalid from `closed`; `lock` appears nowhere, so it
is unknown; the engine is unchanged both times. -/
theorem fsm_event_error_classification_witness :
    doorFSM.Event "close" [] = (doorFSM, some (FSMError.invalidEvent "close" "closed"), []) ∧
    doorFSM.Event "lock" [] = (doorFSM, some (FSMError.unknownEvent "lock"), []) := by
  constructor
  · exact (fsm_event_error_classification doorFSM "close" [] rfl (by decide)).1
      (by decide) (by decide)
  · exact (fsm_event_error_classification doorFSM "lock" [] rfl (by decide)).2 (by decide)

/-- C3: a self-transition (the table maps the event back to the current
state) runs the before-phase hooks, then the after phase, returns
NoTransitionError wrapping whatever error a callback set, and leaves
the engine — hence `Current()` — unchanged. -/
theorem fsm_self_transition_no_change (f : FSM) (name : String) (args : List String)
    (hp : f.pending = none)
    (hl : f.lookupDst name f.current = some f.current)
    (hb : (beforeRun f name args f.current).1.canceled = false) :
    f.Event name args =
      (f, some (FSMError.noTransition (afterRunSelf f name args f.current).1.err),
        (beforeRun f name args f.current).2 ++ (afterRunSelf f name args f.current).2) :=
  Event_eq_self hl hp hb

/-- Witness for C3 on the TestSameState machine: `run` maps `start`
back to `start`, the dispatch returns NoTransitionError and the state
stays `start`. -/
theorem fsm_self_transition_no_change_witness :
    selfFSM.Event "run" [] = (selfFSM, some (FSMError.noTransition none), []) :=
  fsm_self_transition_no_change selfFSM "run" [] rfl (by decide) (by decide)

/-- C6: while an async transition is pending, any `Event` call returns
InTransitionError and leaves the engine — `Current()` and the pending
transition — unchanged: a later `Transition()` still commits the
originally deferred destination and clears the pending slot. -/
theorem fsm_pending_rejects_events (f : FSM) (name : String) (args : List String)
    (p : Pending) (hp : f.pending = some p) :
    f.Event name args = (f, some (FSMError.inTransition name), []) ∧
    ((f.Event name args).1.Transition).1.current = p.dst ∧
    ((f.Event name args).1.Transition).1.pending = none := by
  have h1 : f.Event name args = (f, some (FSMError.inTransition name), []) := by
    simp [FSM.Event, hp]
  refine ⟨h1, ?_, ?_⟩ <;> rw [h1] <;> simp [Transition_eq_resume hp]

/-- Witness for C6 on the async machine with `run` deferred: `reset` is
rejected with InTransitionError and `Transition()` afterwards still
commits `end`. -/
theorem fsm_pending_rejects_events_witness :
    pendingFSM.Event "reset" [] = (pendingFSM, some (FSMError.inTransition "reset"), []) ∧
    ((pendingFSM.Event "reset" []).1.Transition).1.current = "end" ∧
    ((pendingFSM.Event "reset" []).1.Transition).1.pending = none :=
  fsm_pending_rejects_events pendingFSM "reset" []
    ⟨"end", { event := "run", src := "start", dst := "end", args := []
            , err := none, canceled := false, async := true }⟩ rfl

/-- C10: the `Is` query returns true exactly when the queried state
equals `Current()`; being a pure function of the engine into `Bool`, it
performs no state change and runs no callbacks. -/
theorem fsm_is_query (f : FSM) (x : String) : f.Is x = true ↔ f.Current = x := by
  simp [FSM.Is, FSM.Current]

/-! ## Claims C4, C5, C7 -/

/-- C4: a cancellation during the before phase or the leave phase makes
`Event` return CanceledError wrapping the supplied error and leaves the
engine — hence `Current()` — unchanged; once the commit boundary is
passed (no cancel, no async before it) the committed state is the
destination regardless of what any enter- or after-phase callback does
to the cancel flag. -/
theorem fsm_cancel_protocol (f : FSM) (name : String) (args : List String) (d : String)
    (hp : f.pending = none)
    (hl : f.lookupDst name f.current = some d) :
    ((beforeRun f name args d).1.canceled = true →
       f.Event name args =
         (f, some (FSMError.canceled (beforeRun f name args d).1.err),
           (beforeRun f name args d).2)) ∧
    (d ≠ f.current → (beforeRun f name args d).1.canceled = false →
       (leaveRun f name args d).1.canceled = true →
       f.Event name args =
         (f, some (FSMError.canceled (leaveRun f name args d).1.err),
           (beforeRun f name args d).2 ++ (leaveRun f name args d).2)) ∧
    (d ≠ f.current → (beforeRun f name args d).1.canceled = false →
       (leaveRun f name args d).1.canceled = false →
       (leaveRun f name args d).1.async = false →
       (f.Event name args).1.current = d) := by
  refine ⟨?_, ?_, ?_⟩
  · intro hb
    exact Event_eq_canceledBefore hp hl hb
  · intro hd hb hc
    exact Event_eq_canceledLeave hp hl (by simpa using hd) hb hc
  · intro hd hb hc ha
    rw [Event_eq_commit hp hl (by simpa using hd) hb hc ha]

/-- Witness for C4: canceling in the generic before callback (with a
supplied error) and in the state-specific leave callback returns
CanceledError with the state unchanged, while a cancel attempted by an
after-phase callback does not prevent the commit to `end`. -/
theorem fsm_cancel_protocol_witness :
    cancelFSM.Event "run" [] =
      (cancelFSM, some (FSMError.canceled (some "error")),
        [TraceEntry.call "before_event" ActionBefore]) ∧
    leaveCancelFSM.Event "run" [] =
      (leaveCancelFSM, some (FSMError.canceled none),
        [TraceEntry.call "leave_start" ActionLeave]) ∧
    (afterCancelFSM.Event "run" []).1.current = "end" := by
  refine ⟨?_, ?_, ?_⟩
  · exact (fsm_cancel_protocol cancelFSM "run" [] "end" rfl (by decide)).1 rfl
  · exact (fsm_cancel_protocol leaveCancelFSM "run" [] "end" rfl (by decide)).2.1
      (by decide) rfl rfl
  · exact (fsm_cancel_protocol afterCancelFSM "run" [] "end" rfl (by decide)).2.2
      (by decide) rfl rfl rfl

/-- C5: when a leave-phase callback defers the transition, `Event`
returns AsyncError with `Current()` still the source and the commit
stored as the pending transition; the subsequent `Transition()` call
commits the destination and runs the enter and after phases exactly
once (its whole trace is the commit followed by one enter-phase and one
after-phase trace); a further `Transition()` call with no new pending
transition returns NotInTransitionError. -/
theorem fsm_async_deferred (f : FSM) (name : String) (args : List String) (d : String)
    (hp : f.pending = none)
    (hl : f.lookupDst name f.current = some d)
    (hd : d ≠ f.current)
    (hb : (beforeRun f name args d).1.canceled = false)
    (hc : (leaveRun f name args d).1.canceled = false)
    (ha : (leaveRun f name args d).1.async = true) :
    f.Event name args =
      ({ f with pending := some ⟨d, (leaveRun f name args d).1⟩ },
        some (FSMError.async (leaveRun f name args d).1.err),
        (beforeRun f name args d).2 ++ (leaveRun f name args d).2) ∧
    (f.Event name args).1.current = f.current ∧
    ((f.Event name args).1.Transition).1.current = d ∧
    ((f.Event name args).1.Transition).1.pending = none ∧
    ((f.Event name args).1.Transition).2.1 = none ∧
    ((f.Event name args).1.Transition).2.2 =
      TraceEntry.commit d ::
        ((enterPhase { f with current := d, pending := none } d
            (leaveRun f name args d).1).2 ++
         (afterPhase { f with current := d, pending := none }
            (leaveRun f name args d).1.event
            (enterPhase { f with current := d, pending := none } d
              (leaveRun f name args d).1).1).2) ∧
    (((f.Event name args).1.Transition).1).Transition =
      (((f.Event name args).1.Transition).1, some FSMError.notInTransition, []) := by
  have h1 := Event_eq_async hp hl (by simpa using hd) hb hc ha
  have hg : (f.Event name args).1 =
      { f with pending := some ⟨d, (leaveRun f name args d).1⟩ } := by rw [h1]
  refine ⟨h1, ?_, ?_, ?_, ?_, ?_, ?_⟩ <;> rw [hg] <;> rfl

/-- Witness for C5 on the TestAsyncTransitionGenericState machine: the
deferred `run` leaves `Current()` at `start`, `Transition()` commits
`end`, and a second `Transition()` returns NotInTransitionError. -/
theorem fsm_async_deferred_witness :
    asyncFSM.Event "run" [] =
      ({ asyncFSM with pending := some ⟨"end",
          { event := "run", src := "start", dst := "end", args := []
          , err := none, canceled := false, async := true }⟩ },
        some (FSMError.async none),
        [TraceEntry.call "leave_state" ActionLeave]) ∧
    (asyncFSM.Event "run" []).1.current = "start" ∧
    ((asyncFSM.Event "run" []).1.Transition).1.current = "end" ∧
    ((asyncFSM.Event "run" []).1.Transition).1.pending = none ∧
    ((asyncFSM.Event "run" []).1.Transition).2.1 = none ∧
    ((asyncFSM.Event "run" []).1.Transition).2.2 = [TraceEntry.commit "end"] ∧
    (((asyncFSM.Event "run" []).1.Transition).1).Transition =
      (((asyncFSM.Event "run" []).1.Transition).1, some FSMError.notInTransition, []) :=
  fsm_async_deferred asyncFSM "run" [] "end" rfl (by decide) (by decide) rfl rfl rfl

/-- C7: when a callback sets the context's error slot without canceling
(and nothing cancels or defers the dispatch), the transition still
commits — `Current()` becomes the destination — and `Event` returns the
error as its result. -/
theorem fsm_error_slot_commits (f : FSM) (name : String) (args : List String)
    (d : String) (msg : String)
    (hp : f.pending = none)
    (hl : f.lookupDst name f.current = some d)
    (hd : d ≠ f.current)
    (hb : (beforeRun f name args d).1.canceled = false)
    (hc : (leaveRun f name args d).1.canceled = false)
    (ha : (leaveRun f name args d).1.async = false)
    (herr : (afterRunCommit f name args d).1.err = some msg) :
    (f.Event name args).1.current = d ∧
    (f.Event name args).2.1 = some (FSMError.plain msg) := by
  rw [Event_eq_commit hp hl (by simpa using hd) hb hc ha]
  simp [herr]

/-- Witness for C7 on the TestCallbackError machine: the bare `run`
shorthand sets the error slot, the state still becomes `end`, and the
dispatch result carries the error. -/
theorem fsm_error_slot_commits_witness :
    (errFSM.Event "run" []).1.current = "end" ∧
    (errFSM.Event "run" []).2.1 = some (FSMError.plain "error") :=
  fsm_error_slot_commits errFSM "run" [] "end" "error" rfl (by decide) (by decide)
    rfl rfl rfl rfl

/-! ## Claim C2 -/

/-- C2: for a dispatch from `s` to `d ≠ s` with all eight
fully-qualified and generic callbacks registered, none of them touching
the cancel or async flags, and no bare shorthand keys in the way, the
trace is exactly: before-specific, before-generic, leave-specific,
leave-generic, the commit to `d`, enter-specific, enter-generic,
after-specific, after-generic — and the machine ends in `d`. -/
theorem fsm_callback_order (f : FSM) (name : String) (args : List String) (d : String)
    (cb1 cb2 cb3 cb4 cb5 cb6 cb7 cb8 : Callback)
    (hp : f.pending = none)
    (hl : f.lookupDst name f.current = some d)
    (hd : d ≠ f.current)
    (hb1 : lookupCb f.callbacks ("before_" ++ name) = some cb1)
    (hq1 : preservesFlags cb1)
    (hb2 : lookupCb f.callbacks "before_event" = some cb2)
    (hq2 : preservesFlags cb2)
    (hv1 : lookupCb f.callbacks ("leave_" ++ f.current) = some cb3)
    (hq3 : preservesFlags cb3)
    (hv2 : lookupCb f.callbacks "leave_state" = some cb4)
    (hq4 : preservesFlags cb4)
    (he1 : lookupCb f.callbacks ("enter_" ++ d) = some cb5)
    (he2 : lookupCb f.callbacks "enter_state" = some cb6)
    (ha1 : lookupCb f.callbacks ("after_" ++ name) = some cb7)
    (ha2 : lookupCb f.callbacks "after_event" = some cb8)
    (hns : lookupCb f.callbacks f.current = none)
    (hnd : lookupCb f.callbacks d = none)
    (hnn : lookupCb f.callbacks name = none) :
    (f.Event name args).2.2 =
      [TraceEntry.call ("before_" ++ name) ActionBefore,
       TraceEntry.call "before_event" ActionBefore,
       TraceEntry.call ("leave_" ++ f.current) ActionLeave,
       TraceEntry.call "leave_state" ActionLeave,
       TraceEntry.commit d,
       TraceEntry.call ("enter_" ++ d) ActionEnter,
       TraceEntry.call "enter_state" ActionEnter,
       TraceEntry.call ("after_" ++ name) ActionAfter,
       TraceEntry.call "after_event" ActionAfter] ∧
    (f.Event name args).1.current = d := by
  have c1c := fun a e => (hq1 a e).1
  have c1a := fun a e => (hq1 a e).2
  have c2c := fun a e => (hq2 a e).1
  have c2a := fun a e => (hq2 a e).2
  have c3c := fun a e => (hq3 a e).1
  have c3a := fun a e => (hq3 a e).2
  have c4c := fun a e => (hq4 a e).1
  have c4a := fun a e => (hq4 a e).2
  have hbeq : beforeRun f name args d =
      (cb2 ActionBefore (cb1 ActionBefore (initEvent name f.current d args)),
       [TraceEntry.call ("before_" ++ name) ActionBefore,
        TraceEntry.call "before_event" ActionBefore]) := by
    simp [beforeRun, beforePhase, callIf_of_some hb1, callIf_of_some hb2,
      callIf_of_none hns, c1c, c2c, initEvent]
  have hbc : (beforeRun f name args d).1.canceled = false := by
    simp [hbeq, c2c, c1c, initEvent]
  have hleq : leaveRun f name args d =
      (cb4 ActionLeave (cb3 ActionLeave (beforeRun f name args d).1),
       [TraceEntry.call ("leave_" ++ f.current) ActionLeave,
        TraceEntry.call "leave_state" ActionLeave]) := by
    simp [leaveRun, leavePhase, callIf_of_some hv1, callIf_of_some hv2,
      callIf_of_none hns, c3c, c4c, hbc]
  have hlc : (leaveRun f name args d).1.canceled = false := by
    simp [hleq, c4c, c3c, hbc]
  have hla : (leaveRun f name args d).1.async = false := by
    simp [hleq, c4a, c3a, hbeq, c2a, c1a, initEvent]
  have heeq : (enterRun f name args d).2 =
      [TraceEntry.call ("enter_" ++ d) ActionEnter,
       TraceEntry.call "enter_state" ActionEnter] := by
    simp [enterRun, enterPhase, callIf_of_some he1, callIf_of_some he2,
      callIf_of_none hnd]
  have haeq : (afterRunCommit f name args d).2 =
      [TraceEntry.call ("after_" ++ name) ActionAfter,
       TraceEntry.call "after_event" ActionAfter] := by
    simp [afterRunCommit, afterPhase, callIf_of_some ha1, callIf_of_some ha2,
      callIf_of_none hnn]
  rw [Event_eq_commit hp hl (by simpa using hd) hbc hlc hla]
  refine ⟨?_, rfl⟩
  simp [hbeq, hleq, heeq, haeq]

/-- Witness for C2 on the traffic-light machine of ExampleNewFSM: the
`warn` dispatch from `green` produces exactly the documented callback
order around the commit to `yellow`. -/
theorem fsm_callback_order_witness :
    (trafficFSM.Event "warn" []).2.2 =
      [TraceEntry.call "before_warn" ActionBefore,
       TraceEntry.call "before_event" ActionBefore,
       TraceEntry.call "leave_green" ActionLeave,
       TraceEntry.call "leave_state" ActionLeave,
       TraceEntry.commit "yellow",
       TraceEntry.call "enter_yellow" ActionEnter,
       TraceEntry.call "enter_state" ActionEnter,
       TraceEntry.call "after_warn" ActionAfter,
       TraceEntry.call "after_event" ActionAfter] ∧
    (trafficFSM.Event "warn" []).1.current = "yellow" :=
  fsm_callback_order trafficFSM "warn" [] "yellow"
    idCb idCb idCb idCb idCb idCb idCb idCb
    rfl (by decide) (by decide)
    rfl preservesFlags_idCb rfl preservesFlags_idCb
    rfl preservesFlags_idCb rfl preservesFlags_idCb
    rfl rfl rfl rfl rfl rfl rfl

/-! ## Claim C8 -/

/-- C8: a callback registered under a bare state name `s` (the OnState
shorthand), on a nonblocking registry, is invoked with action kind
`ActionOnEvent` during the processing of every event dispatched while
the machine is resident in `s`, with `ActionOnLeave` during the leave
phase of every transition out of `s`, and with `ActionOnEnter` during
the enter phase of every transition into `s`. -/
theorem fsm_onstate_shorthand (f : FSM) (s : String) (cb : Callback)
    (hnb : NonblockingCbs f.callbacks)
    (hcb : lookupCb f.callbacks s = some cb)
    (hs : f.allStates.contains s = true)
    (hp : f.pending = none) :
    (∀ name args d, f.current = s → f.lookupDst name f.current = some d →
       TraceEntry.call s ActionOnEvent ∈ (f.Event name args).2.2) ∧
    (∀ name args d, f.current = s → f.lookupDst name f.current = some d → d ≠ s →
       TraceEntry.call s ActionOnLeave ∈ (f.Event name args).2.2) ∧
    (∀ name args, f.lookupDst name f.current = some s → f.current ≠ s →
       TraceEntry.call s ActionOnEnter ∈ (f.Event name args).2.2) := by
  have hbcAll : ∀ name args d, (beforeRun f name args d).1.canceled = false := by
    intro name args d
    have h := beforePhase_canceled hnb name (initEvent name f.current d args)
    simpa [beforeRun, initEvent] using h
  have hbaAll : ∀ name args d, (beforeRun f name args d).1.async = false := by
    intro name args d
    have h := beforePhase_async hnb name (initEvent name f.current d args) rfl
    simpa [beforeRun, initEvent] using h
  have hlcAll : ∀ name args d, (leaveRun f name args d).1.canceled = false := by
    intro name args d
    have h := leavePhase_canceled hnb f.current (beforeRun f name args d).1
    rw [hbcAll name args d] at h
    simpa [leaveRun] using h
  have hlaAll : ∀ name args d, (leaveRun f name args d).1.async = false := by
    intro name args d
    have h := leavePhase_async hnb f.current (beforeRun f name args d).1 (hbcAll name args d)
    rw [hbaAll name args d] at h
    simpa [leaveRun] using h
  refine ⟨?_, ?_, ?_⟩
  · intro name args d hcur hl
    subst hcur
    have hmem : TraceEntry.call f.current ActionOnEvent ∈ (beforeRun f name args d).2 :=
      beforePhase_mem_onEvent hnb name (initEvent name f.current d args) hcb hs rfl
    by_cases hdd : d = f.current
    · subst hdd
      rw [Event_eq_self hl hp (hbcAll name args f.current)]
      exact List.mem_append_left _ hmem
    · rw [Event_eq_commit hp hl (by simpa using hdd) (hbcAll name args d)
        (hlcAll name args d) (hlaAll name args d)]
      exact List.mem_append_left _ (List.mem_append_left _
        (List.mem_append_left _ (List.mem_append_left _ hmem)))
  · intro name args d hcur hl hds
    subst hcur
    have hmem : TraceEntry.call f.current ActionOnLeave ∈ (leaveRun f name args d).2 :=
      leavePhase_mem_onLeave hnb f.current (beforeRun f name args d).1 hcb hs
        (hbcAll name args d)
    rw [Event_eq_commit hp hl (by simpa using hds) (hbcAll name args d)
      (hlcAll name args d) (hlaAll name args d)]
    exact List.mem_append_left _ (List.mem_append_left _
      (List.mem_append_left _ (List.mem_append_right _ hmem)))
  · intro name args hl hne
    have hmem : TraceEntry.call s ActionOnEnter ∈ (enterRun f name args s).2 :=
      enterPhase_mem_onEnter s ((leaveRun f name args s).1) hcb hs
    rw [Event_eq_commit hp hl (by simpa using Ne.symm hne) (hbcAll name args s)
      (hlcAll name args s) (hlaAll name args s)]
    exact List.mem_append_left _ (List.mem_append_right _ hmem)

theorem nonblocking_phoneCbs : NonblockingCbs phoneFSM.callbacks := by
  intro q hq
  simp [phoneFSM, NewFSM] at hq
  rcases hq with rfl | rfl <;> exact preservesFlags_idCb

/-- Witness for C8 on the phone machine: while resident in
CallInProgress the bare shorthand fires with ActionOnEvent for
`talking`, with ActionOnLeave when `Done` leaves the state, and with
ActionOnEnter when `call` enters it. -/
theorem fsm_onstate_shorthand_witness :
    TraceEntry.call "CallInProgress" ActionOnEvent ∈ (phoneBusyFSM.Event "talking" []).2.2 ∧
    TraceEntry.call "CallInProgress" ActionOnLeave ∈ (phoneBusyFSM.Event "Done" []).2.2 ∧
    TraceEntry.call "CallInProgress" ActionOnEnter ∈ (phoneFSM.Event "call" []).2.2 := by
  refine ⟨?_, ?_, ?_⟩
  · exact (fsm_onstate_shorthand phoneBusyFSM "CallInProgress" idCb nonblocking_phoneCbs
      rfl rfl rfl).1 "talking" [] "CallInProgress" rfl (by decide)
  · exact (fsm_onstate_shorthand phoneBusyFSM "CallInProgress" idCb nonblocking_phoneCbs
      rfl rfl rfl).2.1 "Done" [] "Idle" rfl (by decide) (by decide)
  · exact (fsm_onstate_shorthand phoneFSM "CallInProgress" idCb nonblocking_phoneCbs
      rfl rfl rfl).2.2 "call" [] (by decide) (by decide)
